import Mathlib

/-!
Verification model of the Vulkan texture cache
(src/src/xenia/gpu/vulkan/texture_cache.h).

Only the class declaration is present in the repository sources; the
member-function bodies live in a translation unit that is not part of the
source tree.  Data-structure shapes below are taken from the header
declarations (lines 170-201); the behaviour of the member functions is
modelled from the specification, as indicated by the doc comment of each
definition.  Machine integers are modelled as Nat with explicit reductions
modulo 2 ^ 32 or 2 ^ 64 where the declared C++ type is uint32_t or uint64_t.
-/

namespace TextureCacheModel

/-- Guest texture description.  Mirrors the fields of TextureInfo that the
spec names as the fingerprint inputs: guest address, dimensions, format and
mip/array parameters. -/
structure TextureInfo where
  guest_address : Nat
  width : Nat
  height : Nat
  format : Nat
  mip_levels : Nat
deriving DecidableEq, Repr

/-- Modelled from the spec: a derived 64-bit fingerprint of
(guest_address, dimensions, format, mip/array parameters) used to key the
texture table.  The exact mixing function is not pinned down by the spec;
the claims quantify only over descriptions with equal fingerprints. -/
def TextureInfo.fingerprint (ti : TextureInfo) : Nat :=
  (ti.guest_address + 2 ^ 16 * ti.width + 2 ^ 28 * ti.height +
    2 ^ 40 * ti.format + 2 ^ 52 * ti.mip_levels) % 2 ^ 64

/-- Cache state for the demand path.  The field textures_ models the
unordered_map of fingerprint to texture (header line 182) as an
association list; next_texture models the allocator handing out fresh
texture identities; upload_log records every upload issued, in order. -/
structure CacheState where
  textures_ : List (Nat × Nat)
  next_texture : Nat
  upload_log : List Nat
deriving DecidableEq, Repr

/-- Number of entries of the fingerprint table that carry the key f. -/
def countKey (f : Nat) (l : List (Nat × Nat)) : Nat :=
  (l.filter (fun p => p.1 == f)).length

/-- Modelled from the spec: TextureCache::Demand (header lines 143-145, body
not in the source tree).  Computes the fingerprint; on hit returns the
cached texture immediately with no state change and no upload.  On miss
with a command buffer, allocates a fresh texture, uploads it and inserts it
into the fingerprint table.  On miss without a command buffer, returns
none and performs no work (the header comment: we will return null and
bail). -/
def Demand (s : CacheState) (ti : TextureInfo) (has_command_buffer : Bool) :
    Option Nat × CacheState :=
  match s.textures_.find? (fun p => p.1 == ti.fingerprint) with
  | some p => (some p.2, s)
  | none =>
      if has_command_buffer then
        (some s.next_texture,
          ⟨(ti.fingerprint, s.next_texture) :: s.textures_,
            s.next_texture + 1,
            s.upload_log ++ [s.next_texture]⟩)
      else (none, s)

/-- Runs a sequence of Demand calls, threading the cache state. -/
def runDemands (s : CacheState) (calls : List (TextureInfo × Bool)) : CacheState :=
  calls.foldl (fun st c => (Demand st c.1 c.2).2) s

/-- Resident texture as seen by LookupAddress: guest base address, geometry,
format and the byte size of its backing range (header lines 36-49). -/
structure Texture where
  guest_address : Nat
  width : Nat
  height : Nat
  format : Nat
  memory_size : Nat
deriving DecidableEq, Repr

/-- Modelled from the spec: byte size of one texel of a format.  The
format/address translator is an external collaborator treated as a pure
function; the claims do not depend on its exact values, only that a
requested region has a well-defined byte extent. -/
def texelSize (format : Nat) : Nat :=
  format % 16 + 1

/-- Byte extent of a requested width x height region of a format. -/
def regionBytes (width height format : Nat) : Nat :=
  width * height * texelSize format

/-- Exact-match test of LookupAddress: address, geometry and format all
equal. -/
def exactMatch (t : Texture) (addr width height format : Nat) : Bool :=
  t.guest_address == addr && t.width == width && t.height == height &&
    t.format == format

/-- Containment test of LookupAddress: the requested byte region lies
inside the stored byte range of the texture. -/
def containsRegion (t : Texture) (addr len : Nat) : Bool :=
  decide (t.guest_address ≤ addr) &&
    decide (addr + len ≤ t.guest_address + t.memory_size)

/-- Modelled from the spec: TextureCache::LookupAddress (header lines
100-107, body not in the source tree).  Searches for an exact
geometry/format match first; if none and the caller passed a non-null
out_offset (want_offset), searches for a texture whose address range
contains the requested region and reports the byte delta to the stored
base address.  The returned Option Nat is the value written through
out_offset; none means nothing was written. -/
def LookupAddress (textures : List Texture) (guest_address width height format : Nat)
    (want_offset : Bool) : Option (Texture × Option Nat) :=
  match textures.find? (fun t => exactMatch t guest_address width height format) with
  | some t => some (t, if want_offset then some 0 else none)
  | none =>
      if want_offset then
        match textures.find?
            (fun t => containsRegion t guest_address (regionBytes width height format)) with
        | some t => some (t, some (guest_address - t.guest_address))
        | none => none
      else none

/-- One pending descriptor set with its completion fence (header lines
178-179: the in_flight_sets_ list of set/fence pairs). -/
structure PendingSet where
  set_id : Nat
  fence : Nat
deriving DecidableEq, Repr

/-- One texture on the pending-delete list (header line 185), with the
fence last recorded against it and its reference count. -/
structure PendingTexture where
  tex_id : Nat
  fence : Nat
  ref_count : Nat
deriving DecidableEq, Repr

/-- Scavenger state: the FIFO of pending descriptor sets and the
pending-delete texture list. -/
structure ScavState where
  in_flight_sets_ : List PendingSet
  pending_delete_textures_ : List PendingTexture
deriving DecidableEq, Repr

/-- Modelled from the spec: the descriptor-set half of Scavenge walks the
pending sets in fence-issue order, reclaiming while the fence of the head
has signaled and stopping at the first unsignaled one.  Returns the
reclaimed sets in order and the remaining queue. -/
def scavengeSets (signaled : Nat → Bool) :
    List PendingSet → List PendingSet × List PendingSet
  | [] => ([], [])
  | s :: rest =>
      if signaled s.fence then
        (s :: (scavengeSets signaled rest).1, (scavengeSets signaled rest).2)
      else ([], s :: rest)

/-- Modelled from the spec: the texture half of Scavenge frees a pending
texture exactly when its recorded fence has signaled and its reference
count is zero.  Returns the freed textures and the remaining list. -/
def scavengeTextures (signaled : Nat → Bool) (l : List PendingTexture) :
    List PendingTexture × List PendingTexture :=
  (l.filter (fun t => signaled t.fence && t.ref_count == 0),
    l.filter (fun t => !(signaled t.fence && t.ref_count == 0)))

/-- Modelled from the spec: TextureCache::Scavenge (header line 126, body
not in the source tree).  Reclaims signaled pending descriptor sets in
enqueue order, then frees pending-delete textures whose fence has signaled
and whose reference count is zero.  Returns the freed sets, the freed
textures and the new state. -/
def Scavenge (signaled : Nat → Bool) (st : ScavState) :
    (List PendingSet × List PendingTexture) × ScavState :=
  (((scavengeSets signaled st.in_flight_sets_).1,
      (scavengeTextures signaled st.pending_delete_textures_).1),
    ⟨(scavengeSets signaled st.in_flight_sets_).2,
      (scavengeTextures signaled st.pending_delete_textures_).2⟩)

/-- One event of the upload pipeline: either a copy of one mip (or cube
face) region into the destination image, or a forced submission boundary
(submit the command buffer of the caller and wait for it). -/
inductive UploadEvent where
  | copy (region : Nat) (data : List Nat)
  | flush
deriving DecidableEq, Repr

/-- Modelled from the spec: the copy loop of UploadTexture2D and
UploadTextureCube (header lines 152-158, bodies not in the source tree).
cap is the staging ring-buffer capacity, used the bytes currently consumed
since the last submission, region the index of the next mip/face, and the
list holds the source bytes of each remaining region.  A region that fits
is copied; a region that does not fit forces a flush (submit and wait,
fully reclaiming the staging ring) and is retried from the point of
exhaustion; a region larger than the whole ring fails. -/
def uploadRegionsAux (cap : Nat) : Nat → Nat → List (List Nat) →
    Option (List UploadEvent)
  | _, _, [] => some []
  | used, region, m :: rest =>
      if used + m.length ≤ cap then
        match uploadRegionsAux cap (used + m.length) (region + 1) rest with
        | some evs => some (UploadEvent.copy region m :: evs)
        | none => none
      else if m.length ≤ cap then
        match uploadRegionsAux cap m.length (region + 1) rest with
        | some evs => some (UploadEvent.flush :: UploadEvent.copy region m :: evs)
        | none => none
      else none

/-- Modelled from the spec: a whole upload of the given mip/face regions
through a staging ring of capacity cap, starting with an empty ring. -/
def UploadTexture2D (cap : Nat) (regions : List (List Nat)) :
    Option (List UploadEvent) :=
  uploadRegionsAux cap 0 0 regions

/-- The copy commands of an event list, in order, with their data: the
bytes written into the destination image. -/
def copiesOf : List UploadEvent → List (Nat × List Nat)
  | [] => []
  | UploadEvent.copy region m :: rest => (region, m) :: copiesOf rest
  | UploadEvent.flush :: rest => copiesOf rest

/-- One texture binding produced by shader reflection, carrying its
fetch-constant index (0-31). -/
structure TextureBinding where
  fetch_constant : Nat
deriving DecidableEq, Repr

/-- The descriptor update accumulator (header lines 194-201).  The mask is
a uint32_t bitmap of fetch constants already set up; image_writes and
image_infos model the two fixed arrays of 32 entries as the lists of
fetch-constant indices written into them, in order, and image_write_count
mirrors the running counter. -/
structure UpdateSetInfo where
  has_setup_fetch_mask : Nat
  image_write_count : Nat
  image_writes : List Nat
  image_infos : List Nat
deriving DecidableEq, Repr

/-- The accumulator at the start of PrepareTextureSet: mask and counter
zero, no writes recorded. -/
def emptySetInfo : UpdateSetInfo :=
  ⟨0, 0, [], []⟩

/-- Modelled from the spec: TextureCache::SetupTextureBinding (header lines
165-168, body not in the source tree).  If the bit of the fetch constant
of the binding is already set in the mask the binding is skipped; otherwise
the bit is set (uint32_t arithmetic) and exactly one image-write entry and
one descriptor-image-info entry are appended. -/
def SetupTextureBinding (info : UpdateSetInfo) (b : TextureBinding) : UpdateSetInfo :=
  if info.has_setup_fetch_mask.testBit b.fetch_constant then info
  else
    ⟨(info.has_setup_fetch_mask ||| 1 <<< b.fetch_constant) % 2 ^ 32,
      info.image_write_count + 1,
      info.image_writes ++ [b.fetch_constant],
      info.image_infos ++ [b.fetch_constant]⟩

/-- Modelled from the spec: TextureCache::SetupTextureBindings (header
lines 160-164), processing one binding list of a shader stage into the
shared accumulator. -/
def SetupTextureBindings (info : UpdateSetInfo) (bindings : List TextureBinding) :
    UpdateSetInfo :=
  bindings.foldl SetupTextureBinding info

/-- Modelled from the spec: the descriptor-set assembly of
PrepareTextureSet (header lines 90-94): one fresh accumulator processes the
vertex bindings and then the pixel bindings. -/
def PrepareTextureSet (vertex_bindings pixel_bindings : List TextureBinding) :
    UpdateSetInfo :=
  SetupTextureBindings (SetupTextureBindings emptySetInfo vertex_bindings) pixel_bindings

/-- Well-formedness of the accumulator: the two arrays hold the same
distinct fetch-constant indices, all below 32, the counter equals the
number of entries, the mask is a uint32_t value and its set bits are
exactly the recorded indices. -/
def SetInfoInv (info : UpdateSetInfo) : Prop :=
  info.image_writes.Nodup ∧
  info.image_infos = info.image_writes ∧
  info.image_write_count = info.image_writes.length ∧
  info.has_setup_fetch_mask < 2 ^ 32 ∧
  (∀ j, info.has_setup_fetch_mask.testBit j ↔ j ∈ info.image_writes) ∧
  (∀ j ∈ info.image_writes, j < 32)

/-- View table of one texture: the list of (swizzle, view identity) pairs
owned by the texture (header lines 36-38 and 58-74), plus the allocator
counter handing out fresh view identities. -/
structure ViewState where
  views : List (Nat × Nat)
  next_view : Nat
deriving DecidableEq, Repr

/-- Modelled from the spec: TextureCache::DemandView (header line 146, body
not in the source tree).  Looks the swizzle up among the views of the
texture; on hit returns the existing view unchanged, on miss creates one
fresh view keyed by that swizzle and appends it. -/
def DemandView (s : ViewState) (swizzle : Nat) : Nat × ViewState :=
  match s.views.find? (fun v => v.1 == swizzle) with
  | some v => (v.2, s)
  | none =>
      (s.next_view, ⟨s.views ++ [(swizzle, s.next_view)], s.next_view + 1⟩)

/-- Well-formedness of a view table: swizzle keys are distinct, view
identities are distinct and all below the allocator counter. -/
def ViewInv (s : ViewState) : Prop :=
  (s.views.map Prod.fst).Nodup ∧
  (s.views.map Prod.snd).Nodup ∧
  ∀ v ∈ s.views, v.2 < s.next_view

/-- The main invalidation tracker as declared in the header (lines
187-189): a mutex, a pointer selecting the active generation buffer, and
two generation buffers invalidated_textures_sets_[2]. -/
structure MainInvalidationState where
  active_index : Fin 2
  invalidated_textures_sets_ : Fin 2 → List Nat

/-- The resolve-texture invalidation tracker as declared in the header
(lines 191-192): a mutex and one single vector
invalidated_resolve_textures_. -/
structure ResolveInvalidationState where
  invalidated_resolve_textures_ : List Nat
deriving DecidableEq, Repr

/-- Number of generation buffers the header declares for the main
invalidation tracker: invalidated_textures_sets_[2]. -/
def mainTrackerGenerationBuffers : Nat := 2

/-- Number of generation buffers the header declares for the
resolve-texture invalidation tracker: the single vector
invalidated_resolve_textures_. -/
def resolveTrackerGenerationBuffers : Nat := 1

/-- Modelled from the spec: the asynchronous notifier appends one
invalidated resolve texture to the single resolve list under its mutex. -/
def resolveNotify (l : List Nat) (t : Nat) : List Nat :=
  l ++ [t]

/-- Modelled from the spec: the maintenance pass drains the resolve
invalidation list, taking every recorded texture and leaving the list
empty. -/
def resolveDrain (l : List Nat) : List Nat × List Nat :=
  (l, [])

/-! Helper lemmas -/

theorem scavengeSets_decomp (signaled : Nat → Bool) (l : List PendingSet) :
    (scavengeSets signaled l).1 ++ (scavengeSets signaled l).2 = l := by
  induction l with
  | nil => simp [scavengeSets]
  | cons s rest ih =>
      by_cases h : signaled s.fence = true
      · simp [scavengeSets, h, ih]
      · simp [scavengeSets, h]

theorem scavengeSets_freed_signaled (signaled : Nat → Bool) (l : List PendingSet) :
    ∀ s ∈ (scavengeSets signaled l).1, signaled s.fence = true := by
  induction l with
  | nil => simp [scavengeSets]
  | cons s rest ih =>
      by_cases h : signaled s.fence = true
      · simpa [scavengeSets, h] using ih
      · simp [scavengeSets, h]

theorem scavengeSets_stop (signaled : Nat → Bool) (l : List PendingSet) :
    ∀ s, (scavengeSets signaled l).2.head? = some s → signaled s.fence = false := by
  induction l with
  | nil => simp [scavengeSets]
  | cons s rest ih =>
      by_cases h : signaled s.fence = true
      · simpa [scavengeSets, h] using ih
      · intro s2 hs2
        simp [scavengeSets, h] at hs2
        subst hs2
        simpa using h

theorem foldl_resolveNotify (ts : List Nat) :
    ∀ l : List Nat, ts.foldl resolveNotify l = l ++ ts := by
  induction ts with
  | nil => intro l; simp
  | cons t rest ih =>
      intro l
      simp [List.foldl_cons, resolveNotify, ih (l ++ [t])]

/-! Claim theorems -/

/-- C2: for every reachable cache state, Scavenge reclaims pending
descriptor sets in their enqueue (fence-issue) order, stopping at the first
set whose fence has not signaled, and it frees a pending-delete texture
exactly when its recorded fence has signaled and its reference count is
zero; no resource is freed while its fence is unsignaled. -/
theorem scavenge_fence_order_safety (signaled : Nat → Bool) (st : ScavState) :
    (Scavenge signaled st).1.1 ++ (Scavenge signaled st).2.in_flight_sets_ =
        st.in_flight_sets_ ∧
    (∀ s ∈ (Scavenge signaled st).1.1, signaled s.fence = true) ∧
    (∀ s, (Scavenge signaled st).2.in_flight_sets_.head? = some s →
        signaled s.fence = false) ∧
    (∀ t ∈ (Scavenge signaled st).1.2, signaled t.fence = true ∧ t.ref_count = 0) ∧
    (∀ t ∈ st.pending_delete_textures_,
        (t ∈ (Scavenge signaled st).1.2 ↔ signaled t.fence = true ∧ t.ref_count = 0)) := by
  refine ⟨scavengeSets_decomp signaled st.in_flight_sets_,
    scavengeSets_freed_signaled signaled st.in_flight_sets_,
    scavengeSets_stop signaled st.in_flight_sets_, ?_, ?_⟩
  · intro t ht
    have := List.mem_filter.1 ht
    simpa using this.2
  · intro t ht
    constructor
    · intro hmem
      have := List.mem_filter.1 hmem
      simpa using this.2
    · intro hcond
      exact List.mem_filter.2 ⟨ht, by simp [hcond.1, hcond.2]⟩

/-- C4 counterexample: the header declares a single vector for the
resolve-texture invalidation list, not the two generation buffers of the
main tracker, so the resolve list does not use the double-buffered
scheme. -/
theorem resolve_tracker_not_double_buffered :
    ¬ resolveTrackerGenerationBuffers = mainTrackerGenerationBuffers := by
  decide

/-- C4 amended: the resolve-texture invalidation list is guarded by its own
mutex but consists of one single buffer, unlike the two swapped generation
buffers of the main tracker; the notifier appends to that one vector and
the maintenance pass drains exactly the appended textures, in order,
leaving the vector empty. -/
theorem resolve_tracker_single_buffer :
    resolveTrackerGenerationBuffers = 1 ∧
    mainTrackerGenerationBuffers = 2 ∧
    ∀ (l ts : List Nat), resolveDrain (ts.foldl resolveNotify l) = (l ++ ts, []) := by
  refine ⟨rfl, rfl, ?_⟩
  intro l ts
  simp [resolveDrain, foldl_resolveNotify ts l]

/-- C7: a Demand with no command buffer for a description whose texture is
not resident returns null with the cache state untouched (no allocation,
no upload): a normal miss, not an error. -/
theorem demand_no_cmdbuf_not_resident (s : CacheState) (ti : TextureInfo)
    (hmiss : ∀ p ∈ s.textures_, p.1 ≠ ti.fingerprint) :
    Demand s ti false = (none, s) := by
  have hf : s.textures_.find? (fun p => p.1 == ti.fingerprint) = none :=
    List.find?_eq_none.2 (by intro p hp; simpa using hmiss p hp)
  simp [Demand, hf]

theorem demand_no_cmdbuf_not_resident_witness :
    Demand ⟨[], 0, []⟩ ⟨5, 0, 0, 0, 0⟩ false = (none, ⟨[], 0, []⟩) :=
  demand_no_cmdbuf_not_resident ⟨[], 0, []⟩ ⟨5, 0, 0, 0, 0⟩ (by simp)

/-- C9: a LookupAddress call whose out_offset pointer is null either
returns null or returns a texture that exactly matches the requested
address, geometry and format, writing no offset; containing-only matches
are possible only with a non-null out_offset. -/
theorem lookup_null_out_offset_exact (textures : List Texture)
    (guest_address width height format : Nat) (t : Texture) (off : Option Nat)
    (h : LookupAddress textures guest_address width height format false =
        some (t, off)) :
    exactMatch t guest_address width height format = true ∧ off = none ∧
      t ∈ textures := by
  unfold LookupAddress at h
  cases hf : textures.find? (fun t2 => exactMatch t2 guest_address width height format) with
  | none => rw [hf] at h; simp at h
  | some t2 =>
      rw [hf] at h
      simp at h
      obtain ⟨h1, h2⟩ := h
      subst h1
      refine ⟨?_, h2.symm, List.mem_of_find?_eq_some hf⟩
      have hp := List.find?_some hf
      simpa using hp

theorem lookup_null_out_offset_exact_witness :
    exactMatch ⟨0, 1, 1, 0, 100⟩ 0 1 1 0 = true ∧ (none : Option Nat) = none ∧
      (⟨0, 1, 1, 0, 100⟩ : Texture) ∈ [(⟨0, 1, 1, 0, 100⟩ : Texture)] :=
  lookup_null_out_offset_exact [⟨0, 1, 1, 0, 100⟩] 0 1 1 0 ⟨0, 1, 1, 0, 100⟩ none
    (by decide)

/-- C5: a LookupAddress request whose region is fully contained within the
address range of a resident texture (and matches no texture exactly)
returns that containing texture together with a non-null offset equal to
the byte delta between the requested base address and the stored base
address. -/
theorem lookup_contained_region_offset (textures : List Texture)
    (guest_address width height format : Nat) (t0 : Texture)
    (hnoexact : ∀ t ∈ textures, exactMatch t guest_address width height format = false)
    (ht0 : t0 ∈ textures)
    (hcont : containsRegion t0 guest_address (regionBytes width height format) = true)
    (huniq : ∀ t ∈ textures,
        containsRegion t guest_address (regionBytes width height format) = true →
          t = t0) :
    LookupAddress textures guest_address width height format true =
      some (t0, some (guest_address - t0.guest_address)) := by
  have hf : textures.find?
      (fun t => exactMatch t guest_address width height format) = none := by
    refine List.find?_eq_none.2 ?_
    intro t ht
    simp [hnoexact t ht]
  cases hc : textures.find?
      (fun t => containsRegion t guest_address (regionBytes width height format)) with
  | none =>
      have := List.find?_eq_none.1 hc t0 ht0
      simp [hcont] at this
  | some t1 =>
      have hmem := List.mem_of_find?_eq_some hc
      have hpred := List.find?_some hc
      have h1 : t1 = t0 := huniq t1 hmem (by simpa using hpred)
      subst h1
      simp [LookupAddress, hf, hc]

theorem lookup_contained_region_offset_witness :
    LookupAddress [⟨0, 2, 2, 0, 100⟩] 4 1 1 0 true =
      some (⟨0, 2, 2, 0, 100⟩, some 4) :=
  lookup_contained_region_offset [⟨0, 2, 2, 0, 100⟩] 4 1 1 0 ⟨0, 2, 2, 0, 100⟩
    (by decide) (by decide) (by decide) (by decide)

/-- C8: on a well-formed view table, demanding the same swizzle twice
returns the identical view with no new view created, two distinct swizzles
yield two distinct views, and the table stays well formed, so every
swizzle stays unique among the views of its parent texture. -/
theorem demand_view_idempotent_unique (s : ViewState) (hinv : ViewInv s)
    (sw sw2 : Nat) (_hsw : sw < 2 ^ 16) (_hsw2 : sw2 < 2 ^ 16) (hne : sw ≠ sw2) :
    DemandView (DemandView s sw).2 sw = DemandView s sw ∧
    (DemandView (DemandView s sw).2 sw2).1 ≠ (DemandView s sw).1 ∧
    ViewInv (DemandView s sw).2 := by
  obtain ⟨hkeys, hids, hbound⟩ := hinv
  cases hf : s.views.find? (fun v => v.1 == sw) with
  | some v =>
      have hv_mem := List.mem_of_find?_eq_some hf
      have hv_key : v.1 = sw := by simpa using List.find?_some hf
      have hview : DemandView s sw = (v.2, s) := by simp [DemandView, hf]
      refine ⟨by rw [hview]; exact hview, ?_,
        by rw [hview]; exact ⟨hkeys, hids, hbound⟩⟩
      rw [hview]
      cases hf2 : s.views.find? (fun v2 => v2.1 == sw2) with
      | some v2 =>
          have hv2_mem := List.mem_of_find?_eq_some hf2
          have hv2_key : v2.1 = sw2 := by simpa using List.find?_some hf2
          have hvne : v ≠ v2 := by
            intro hcontra
            rw [hcontra, hv2_key] at hv_key
            exact hne hv_key.symm
          have hinj := List.inj_on_of_nodup_map hids
          simp only [DemandView, hf2]
          intro hid_eq
          exact hvne (hinj hv_mem hv2_mem hid_eq.symm)
      | none =>
          have := hbound v hv_mem
          simp [DemandView, hf2]
          omega
  | none =>
      have hview : DemandView s sw =
          (s.next_view, ⟨s.views ++ [(sw, s.next_view)], s.next_view + 1⟩) := by
        simp [DemandView, hf]
      have hsw_not_key : sw ∉ s.views.map Prod.fst := by
        intro hmem
        obtain ⟨v, hv, hveq⟩ := List.mem_map.1 hmem
        have := List.find?_eq_none.1 hf v hv
        simp [hveq] at this
      have hfind_app : (s.views ++ [(sw, s.next_view)]).find? (fun v => v.1 == sw) =
          some (sw, s.next_view) := by
        rw [List.find?_append, hf]
        simp
      constructor
      · rw [hview]
        simp only [DemandView, hfind_app]
      constructor
      · rw [hview]
        cases hf2 : (s.views ++ [(sw, s.next_view)]).find? (fun v => v.1 == sw2) with
        | some v2 =>
            simp only [DemandView, hf2]
            have hv2_key : v2.1 = sw2 := by simpa using List.find?_some hf2
            have hv2_mem := List.mem_of_find?_eq_some hf2
            rcases List.mem_append.1 hv2_mem with hold | hnew
            · have := hbound v2 hold
              omega
            · simp at hnew
              rw [hnew] at hv2_key
              simp at hv2_key
              exact absurd hv2_key hne
        | none =>
            simp [DemandView, hf2]
      · rw [hview]
        dsimp only
        refine ⟨?_, ?_, ?_⟩
        · rw [List.map_append]
          refine List.nodup_append.2 ⟨hkeys, by simp, ?_⟩
          intro a ha hb
          simp at hb
          exact hsw_not_key (hb ▸ ha)
        · rw [List.map_append]
          refine List.nodup_append.2 ⟨hids, by simp, ?_⟩
          intro a ha hb
          simp at hb
          obtain ⟨v, hv, hveq⟩ := List.mem_map.1 ha
          have := hbound v hv
          omega
        · intro v hv
          dsimp only at hv ⊢
          rcases List.mem_append.1 hv with hold | hnew
          · have := hbound v hold
            omega
          · simp at hnew
            rw [hnew]
            simp

theorem demand_view_idempotent_unique_witness :
    DemandView (DemandView ⟨[], 0⟩ 3).2 3 = DemandView ⟨[], 0⟩ 3 ∧
    (DemandView (DemandView ⟨[], 0⟩ 3).2 7).1 ≠ (DemandView ⟨[], 0⟩ 3).1 ∧
    ViewInv (DemandView ⟨[], 0⟩ 3).2 :=
  demand_view_idempotent_unique ⟨[], 0⟩ (by simp [ViewInv]) 3 7 (by decide)
    (by decide) (by decide)

theorem demand_hit (s : CacheState) (ti : TextureInfo) (cb : Bool) (p : Nat × Nat)
    (hf : s.textures_.find? (fun q => q.1 == ti.fingerprint) = some p) :
    Demand s ti cb = (some p.2, s) := by
  simp [Demand, hf]

theorem demand_found_key (s : CacheState) (ti : TextureInfo) (cb : Bool)
    (t : Nat) (s2 : CacheState) (h : Demand s ti cb = (some t, s2)) :
    s2.textures_.find? (fun q => q.1 == ti.fingerprint) =
      some (ti.fingerprint, t) := by
  unfold Demand at h
  cases hf : s.textures_.find? (fun q => q.1 == ti.fingerprint) with
  | some p =>
      rw [hf] at h
      simp at h
      obtain ⟨h1, h2⟩ := h
      have hkey : p.1 = ti.fingerprint := by simpa using List.find?_some hf
      have hp : p = (ti.fingerprint, t) := Prod.ext hkey h1
      rw [← h2, hf, hp]
  | none =>
      rw [hf] at h
      cases cb with
      | false => simp at h
      | true =>
          simp at h
          obtain ⟨h1, h2⟩ := h
          rw [← h2]
          simp [h1]

theorem runDemands_cons (s : CacheState) (c : TextureInfo × Bool)
    (rest : List (TextureInfo × Bool)) :
    runDemands s (c :: rest) = runDemands (Demand s c.1 c.2).2 rest := rfl

theorem runDemands_stable (f : Nat) (calls : List (TextureInfo × Bool))
    (hcalls : ∀ c ∈ calls, (c.1 : TextureInfo).fingerprint = f) :
    ∀ s : CacheState, (∃ p, s.textures_.find? (fun q => q.1 == f) = some p) →
      runDemands s calls = s := by
  induction calls with
  | nil => intro s _; rfl
  | cons c rest ih =>
      intro s hex
      obtain ⟨p, hp⟩ := hex
      have hc : c.1.fingerprint = f := hcalls c (by simp)
      have hstep : Demand s c.1 c.2 = (some p.2, s) :=
        demand_hit s c.1 c.2 p (by rw [hc]; exact hp)
      rw [runDemands_cons, hstep]
      exact ih (fun c2 h2 => hcalls c2 (by simp [h2])) s ⟨p, hp⟩

theorem find?_none_of_countKey_zero (f : Nat) (l : List (Nat × Nat))
    (h : countKey f l = 0) : l.find? (fun q => q.1 == f) = none := by
  refine List.find?_eq_none.2 ?_
  intro p hp hpred
  have hmem : p ∈ l.filter (fun q => q.1 == f) := List.mem_filter.2 ⟨hp, hpred⟩
  have : l.filter (fun q => q.1 == f) = [] := List.length_eq_zero.1 h
  rw [this] at hmem
  simp at hmem

/-- C1: Demand calls whose descriptions share one fingerprint create and
insert at most one texture: once a Demand has returned a texture, every
later Demand with the same fingerprint returns the same texture and leaves
the whole cache state (including the upload log) untouched, and over any
sequence of such calls starting from a state with no table entry for the
fingerprint, at most one texture is allocated and the table ends with at
most one entry for it. -/
theorem demand_fingerprint_dedup :
    (∀ (s : CacheState) (ti : TextureInfo) (cb : Bool) (t : Nat) (s2 : CacheState),
        Demand s ti cb = (some t, s2) →
        ∀ (ti2 : TextureInfo) (cb2 : Bool), ti2.fingerprint = ti.fingerprint →
          Demand s2 ti2 cb2 = (some t, s2)) ∧
    (∀ (s : CacheState) (f : Nat) (calls : List (TextureInfo × Bool)),
        (∀ c ∈ calls, (c.1 : TextureInfo).fingerprint = f) →
        countKey f s.textures_ = 0 →
        (runDemands s calls).next_texture - s.next_texture ≤ 1 ∧
        countKey f (runDemands s calls).textures_ ≤ 1) := by
  constructor
  · intro s ti cb t s2 h ti2 cb2 hfp
    have hf2 : s2.textures_.find? (fun q => q.1 == ti2.fingerprint) =
        some (ti.fingerprint, t) := by
      rw [hfp]
      exact demand_found_key s ti cb t s2 h
    exact demand_hit s2 ti2 cb2 (ti.fingerprint, t) hf2
  · intro s f calls
    induction calls generalizing s with
    | nil =>
        intro _ h0
        refine ⟨by simp [runDemands], ?_⟩
        simp only [runDemands, List.foldl_nil]
        omega
    | cons c rest ih =>
        intro hcalls h0
        have hc : c.1.fingerprint = f := hcalls c (by simp)
        have hf : s.textures_.find? (fun q => q.1 == c.1.fingerprint) = none := by
          rw [hc]
          exact find?_none_of_countKey_zero f s.textures_ h0
        have hrest : ∀ c2 ∈ rest, (c2.1 : TextureInfo).fingerprint = f :=
          fun c2 h2 => hcalls c2 (by simp [h2])
        cases hcb : c.2 with
        | false =>
            have hstep : Demand s c.1 c.2 = (none, s) := by
              rw [hcb]; simp [Demand, hf]
            rw [runDemands_cons, hstep]
            exact ih s hrest h0
        | true =>
            have hstep : Demand s c.1 c.2 =
                (some s.next_texture,
                  ⟨(c.1.fingerprint, s.next_texture) :: s.textures_,
                    s.next_texture + 1, s.upload_log ++ [s.next_texture]⟩) := by
              rw [hcb]; simp [Demand, hf]
            have hstable : runDemands
                (⟨(c.1.fingerprint, s.next_texture) :: s.textures_,
                  s.next_texture + 1, s.upload_log ++ [s.next_texture]⟩ : CacheState)
                rest =
                ⟨(c.1.fingerprint, s.next_texture) :: s.textures_,
                  s.next_texture + 1, s.upload_log ++ [s.next_texture]⟩ := by
              refine runDemands_stable f rest hrest _ ⟨(c.1.fingerprint, s.next_texture), ?_⟩
              apply List.find?_cons_of_pos
              simp [hc]
            rw [runDemands_cons, hstep]
            rw [hstable]
            constructor
            · simp
            · simp [countKey, List.filter, hc]
              simpa [countKey] using h0

theorem demand_fingerprint_dedup_witness :
    Demand ⟨[(5, 0)], 1, [0]⟩ ⟨5, 0, 0, 0, 0⟩ false =
      (some 0, ⟨[(5, 0)], 1, [0]⟩) ∧
    (runDemands ⟨[], 0, []⟩
        [(⟨5, 0, 0, 0, 0⟩, true), (⟨5, 0, 0, 0, 0⟩, true)]).next_texture - 0 ≤ 1 :=
  ⟨demand_fingerprint_dedup.1 ⟨[], 0, []⟩ ⟨5, 0, 0, 0, 0⟩ true 0 ⟨[(5, 0)], 1, [0]⟩
      (by decide) ⟨5, 0, 0, 0, 0⟩ false rfl,
    (demand_fingerprint_dedup.2 ⟨[], 0, []⟩ 5
        [(⟨5, 0, 0, 0, 0⟩, true), (⟨5, 0, 0, 0, 0⟩, true)]
        (by decide) (by decide)).1⟩

theorem emptySetInfo_inv : SetInfoInv emptySetInfo := by
  refine ⟨List.nodup_nil, rfl, rfl, Nat.two_pow_pos 32, ?_, by simp [emptySetInfo]⟩
  intro j
  simp [emptySetInfo, Nat.zero_testBit]

theorem setupTextureBinding_inv (info : UpdateSetInfo) (b : TextureBinding)
    (hinv : SetInfoInv info) (hb : b.fetch_constant < 32) :
    SetInfoInv (SetupTextureBinding info b) ∧
    (∀ j, j ∈ (SetupTextureBinding info b).image_writes ↔
        j ∈ info.image_writes ∨ j = b.fetch_constant) := by
  obtain ⟨hnd, hinfos, hcount, hlt, hbits, hmem32⟩ := hinv
  by_cases hbit : info.has_setup_fetch_mask.testBit b.fetch_constant = true
  · have hmem : b.fetch_constant ∈ info.image_writes := (hbits _).1 hbit
    have hskip : SetupTextureBinding info b = info := by
      simp [SetupTextureBinding, hbit]
    rw [hskip]
    refine ⟨⟨hnd, hinfos, hcount, hlt, hbits, hmem32⟩, ?_⟩
    intro j
    constructor
    · exact fun h => Or.inl h
    · rintro (h | h)
      · exact h
      · rw [h]; exact hmem
  · have hnotmem : b.fetch_constant ∉ info.image_writes :=
      fun hm => hbit ((hbits _).2 hm)
    have hstep : SetupTextureBinding info b =
        ⟨(info.has_setup_fetch_mask ||| 1 <<< b.fetch_constant) % 2 ^ 32,
          info.image_write_count + 1,
          info.image_writes ++ [b.fetch_constant],
          info.image_infos ++ [b.fetch_constant]⟩ := by
      simp [SetupTextureBinding, hbit]
    rw [hstep]
    refine ⟨⟨?_, ?_, ?_, ?_, ?_, ?_⟩, ?_⟩
    · refine List.nodup_append.2 ⟨hnd, by simp, ?_⟩
      intro a ha hb2
      simp at hb2
      rw [hb2] at ha
      exact hnotmem ha
    · rw [hinfos]
    · simp [hcount]
    · exact Nat.mod_lt _ (Nat.two_pow_pos 32)
    · intro j
      simp only [Nat.testBit_mod_two_pow, Nat.testBit_or, Nat.one_shiftLeft,
        Nat.testBit_two_pow, List.mem_append, List.mem_singleton]
      constructor
      · intro h
        simp at h
        rcases h.2 with h2 | h2
        · exact Or.inl ((hbits j).1 h2)
        · exact Or.inr h2.symm
      · rintro (h | h)
        · have hj32 := hmem32 j h
          simp [hj32, (hbits j).2 h]
        · rw [h]
          simp [hb]
    · intro j hj
      rcases List.mem_append.1 hj with h | h
      · exact hmem32 j h
      · simp at h
        rw [h]
        exact hb
    · intro j
      simp

theorem setupTextureBindings_inv (bindings : List TextureBinding) :
    ∀ info : UpdateSetInfo, SetInfoInv info →
      (∀ b ∈ bindings, b.fetch_constant < 32) →
      SetInfoInv (SetupTextureBindings info bindings) ∧
      (∀ j, j ∈ (SetupTextureBindings info bindings).image_writes ↔
          j ∈ info.image_writes ∨ j ∈ bindings.map TextureBinding.fetch_constant) := by
  induction bindings with
  | nil => intro info hi _; exact ⟨hi, by simp [SetupTextureBindings]⟩
  | cons b rest ih =>
      intro info hi hall
      have hb : b.fetch_constant < 32 := hall b (by simp)
      obtain ⟨hi2, hm2⟩ := setupTextureBinding_inv info b hi hb
      obtain ⟨hi3, hm3⟩ :=
        ih (SetupTextureBinding info b) hi2 (fun x hx => hall x (by simp [hx]))
      have hcons : SetupTextureBindings info (b :: rest) =
          SetupTextureBindings (SetupTextureBinding info b) rest := rfl
      refine ⟨by rw [hcons]; exact hi3, ?_⟩
      intro j
      rw [hcons, hm3 j, hm2 j]
      simp only [List.map_cons, List.mem_cons]
      tauto

theorem nodup_lt_length_le (l : List Nat) (n : Nat) (hnd : l.Nodup)
    (hlt : ∀ x ∈ l, x < n) : l.length ≤ n := by
  have h1 : l.toFinset ⊆ Finset.range n := by
    intro x hx
    rw [List.mem_toFinset] at hx
    exact Finset.mem_range.2 (hlt x hx)
  have h2 := Finset.card_le_card h1
  rw [List.toFinset_card_of_nodup hnd, Finset.card_range] at h2
  exact h2

/-- C6: when one descriptor set is assembled from a vertex and a pixel
binding list whose fetch-constant indices all lie in 0-31, an index
appearing in both lists ends with exactly one image-write entry and one
descriptor-image-info entry, the deduplication being carried by the 32-bit
has_setup_fetch_mask. -/
theorem prepare_set_dedup_shared (v p : List TextureBinding) (i : Nat)
    (hv : ∀ b ∈ v, b.fetch_constant < 32) (hp : ∀ b ∈ p, b.fetch_constant < 32)
    (_hiv : i ∈ v.map TextureBinding.fetch_constant)
    (hip : i ∈ p.map TextureBinding.fetch_constant) :
    (PrepareTextureSet v p).image_writes.count i = 1 ∧
    (PrepareTextureSet v p).image_infos.count i = 1 := by
  obtain ⟨hi1, _⟩ := setupTextureBindings_inv v emptySetInfo emptySetInfo_inv hv
  obtain ⟨hi2, hm2⟩ :=
    setupTextureBindings_inv p (SetupTextureBindings emptySetInfo v) hi1 hp
  unfold PrepareTextureSet
  have hmem : i ∈ (SetupTextureBindings
      (SetupTextureBindings emptySetInfo v) p).image_writes :=
    (hm2 i).2 (Or.inr hip)
  have hcount := List.count_eq_one_of_mem hi2.1 hmem
  refine ⟨hcount, ?_⟩
  rw [hi2.2.1]
  exact hcount

theorem prepare_set_dedup_shared_witness :
    (PrepareTextureSet [⟨3⟩] [⟨3⟩]).image_writes.count 3 = 1 ∧
    (PrepareTextureSet [⟨3⟩] [⟨3⟩]).image_infos.count 3 = 1 :=
  prepare_set_dedup_shared [⟨3⟩] [⟨3⟩] 3 (by decide) (by decide) (by decide)
    (by decide)

/-- C10: with every fetch-constant index below 32, the accumulated
image_write_count never exceeds 32 at any point of processing the two
binding lists, so every store into the fixed image_writes[32] and
image_infos[32] arrays stays in bounds, the dedup mask making the overflow
branch unreachable. -/
theorem prepare_set_writes_in_bounds (v p : List TextureBinding)
    (hv : ∀ b ∈ v, b.fetch_constant < 32) (hp : ∀ b ∈ p, b.fetch_constant < 32) :
    (∀ l1 l2, v ++ p = l1 ++ l2 →
        (SetupTextureBindings emptySetInfo l1).image_write_count ≤ 32) ∧
    (PrepareTextureSet v p).image_write_count ≤ 32 ∧
    (PrepareTextureSet v p).image_writes.length =
      (PrepareTextureSet v p).image_write_count := by
  have hall : ∀ b ∈ v ++ p, b.fetch_constant < 32 := by
    intro b hb
    rcases List.mem_append.1 hb with h | h
    exacts [hv b h, hp b h]
  have hpart : ∀ l1 l2, v ++ p = l1 ++ l2 →
      (SetupTextureBindings emptySetInfo l1).image_write_count ≤ 32 := by
    intro l1 l2 heq
    have hl1 : ∀ b ∈ l1, b.fetch_constant < 32 := by
      intro b hb
      exact hall b (heq ▸ List.mem_append.2 (Or.inl hb))
    obtain ⟨hi, _⟩ := setupTextureBindings_inv l1 emptySetInfo emptySetInfo_inv hl1
    obtain ⟨hnd, _, hcount, _, _, hmem32⟩ := hi
    rw [hcount]
    exact nodup_lt_length_le _ 32 hnd hmem32
  refine ⟨hpart, ?_, ?_⟩
  · have hflat : PrepareTextureSet v p = SetupTextureBindings emptySetInfo (v ++ p) := by
      unfold PrepareTextureSet SetupTextureBindings
      rw [List.foldl_append]
    rw [hflat]
    exact hpart (v ++ p) [] (by simp)
  · obtain ⟨hi1, _⟩ := setupTextureBindings_inv v emptySetInfo emptySetInfo_inv hv
    obtain ⟨hi2, _⟩ :=
      setupTextureBindings_inv p (SetupTextureBindings emptySetInfo v) hi1 hp
    unfold PrepareTextureSet
    exact hi2.2.2.1.symm

theorem prepare_set_writes_in_bounds_witness :
    (PrepareTextureSet [⟨1⟩, ⟨2⟩] [⟨1⟩, ⟨3⟩]).image_write_count ≤ 32 :=
  (prepare_set_writes_in_bounds [⟨1⟩, ⟨2⟩] [⟨1⟩, ⟨3⟩] (by decide) (by decide)).2.1

theorem uploadRegionsAux_copies (cap : Nat) (regions : List (List Nat)) :
    ∀ used region evs, uploadRegionsAux cap used region regions = some evs →
      copiesOf evs = regions.enumFrom region := by
  induction regions with
  | nil =>
      intro used region evs h
      simp [uploadRegionsAux] at h
      subst h
      simp [copiesOf]
  | cons m rest ih =>
      intro used region evs h
      simp only [uploadRegionsAux] at h
      by_cases h1 : used + m.length ≤ cap
      · rw [if_pos h1] at h
        cases hrec : uploadRegionsAux cap (used + m.length) (region + 1) rest with
        | none => rw [hrec] at h; simp at h
        | some evs2 =>
            rw [hrec] at h
            simp at h
            rw [← h]
            simp [copiesOf, ih _ _ _ hrec, List.enumFrom]
      · rw [if_neg h1] at h
        by_cases h2 : m.length ≤ cap
        · rw [if_pos h2] at h
          cases hrec : uploadRegionsAux cap m.length (region + 1) rest with
          | none => rw [hrec] at h; simp at h
          | some evs2 =>
              rw [hrec] at h
              simp at h
              rw [← h]
              simp [copiesOf, ih _ _ _ hrec, List.enumFrom]
        · rw [if_neg h2] at h
          simp at h

theorem uploadRegionsAux_no_flush (regions : List (List Nat)) :
    ∀ cap used region, used + (regions.map List.length).sum ≤ cap →
      ∃ evs, uploadRegionsAux cap used region regions = some evs ∧
        UploadEvent.flush ∉ evs := by
  induction regions with
  | nil =>
      intro cap used region _
      exact ⟨[], by simp [uploadRegionsAux], by simp⟩
  | cons m rest ih =>
      intro cap used region h
      rw [List.map_cons, List.sum_cons] at h
      have h1 : used + m.length ≤ cap := by omega
      obtain ⟨evs2, hrec, hnf⟩ := ih cap (used + m.length) (region + 1) (by omega)
      refine ⟨UploadEvent.copy region m :: evs2, ?_, ?_⟩
      · simp [uploadRegionsAux, if_pos h1, hrec]
      · simp [hnf]

/-- C3: whenever an upload of a list of mip/cube-face regions through a
staging ring of capacity cap succeeds, possibly forcing submission
boundaries on exhaustion and resuming from the point of exhaustion, the
copy commands it issues are exactly one copy per region, in order, with
the source bytes of that region: byte-for-byte the same destination
content as a single uninterrupted upload (one with staging capacity equal
to the total size, which issues no flush), with no copy lost or
duplicated. -/
theorem upload_exhaustion_byte_equiv (cap : Nat) (regions : List (List Nat))
    (evs : List UploadEvent) (h : UploadTexture2D cap regions = some evs) :
    copiesOf evs = regions.enum ∧
    ∃ evs2, UploadTexture2D ((regions.map List.length).sum) regions = some evs2 ∧
      UploadEvent.flush ∉ evs2 ∧ copiesOf evs = copiesOf evs2 := by
  have h1 := uploadRegionsAux_copies cap regions 0 0 evs h
  obtain ⟨evs2, h2, hnf⟩ :=
    uploadRegionsAux_no_flush regions ((regions.map List.length).sum) 0 0 (by omega)
  have h3 := uploadRegionsAux_copies ((regions.map List.length).sum) regions 0 0 evs2 h2
  exact ⟨h1, evs2, h2, hnf, by rw [h1, h3]⟩

theorem upload_exhaustion_byte_equiv_witness :
    copiesOf [UploadEvent.copy 0 [1, 2, 3], UploadEvent.flush,
        UploadEvent.copy 1 [4, 5, 6]] = [[1, 2, 3], [4, 5, 6]].enum ∧
    ∃ evs2, UploadTexture2D (([[1, 2, 3], [4, 5, 6]].map List.length).sum)
        [[1, 2, 3], [4, 5, 6]] = some evs2 ∧
      UploadEvent.flush ∉ evs2 ∧
      copiesOf [UploadEvent.copy 0 [1, 2, 3], UploadEvent.flush,
          UploadEvent.copy 1 [4, 5, 6]] = copiesOf evs2 :=
  upload_exhaustion_byte_equiv 4 [[1, 2, 3], [4, 5, 6]]
    [UploadEvent.copy 0 [1, 2, 3], UploadEvent.flush, UploadEvent.copy 1 [4, 5, 6]]
    (by decide)

end TextureCacheModel
